import Mathlib

/-!
Verification of the go-bitflow streaming metrics pipeline against its
natural-language specification.  Go code is shallowly embedded: byte streams
become lists of naturals, pointers become `Option`, fallible calls return
`Except`, and the stateful batch processor becomes explicit state passing.
Each definition mirrors one function of the repository; doc comments name the
source location.  Functions of the Go standard library or of helper packages
that are not part of the repository sources are modelled from their documented
behaviour and marked as such.
-/

namespace GoBitflow

/-! ## Endpoint descriptions (pipeline_flags.go) -/

/-- Mirrors `EndpointDescription` (pipeline_flags.go lines 320-325).
`Format`/`Type` use the Go zero value `""` for `UndefinedFormat` and
`UndefinedEndpoint`. -/
structure EndpointDescription where
  Format : String
  Typ : String
  IsCustomTyp : Bool
  Target : String
deriving DecidableEq, Repr

/-- Mirrors `allFormatsMap` (pipeline_flags.go lines 58-62): the recognised
marshalling formats `text`, `csv`, `bin`. -/
def allFormats : List String := ["text", "csv", "bin"]

/-- Everything before the last colon of a host-port target. -/
def hostPart (cs : List Char) : List Char :=
  cs.take (cs.length - (cs.reverse.takeWhile (· ≠ ':')).length - 1)

/-- Everything after the last colon of a host-port target. -/
def portPart (cs : List Char) : List Char :=
  (cs.reverse.takeWhile (· ≠ ':')).reverse

/-- Modelled from the Go standard library: `net.SplitHostPort` splits the
target at the last colon into host and port.  It fails when there is no colon
or when the host part itself contains a colon.  The bracketed IPv6 forms
(`[host]:port`) are not modelled; targets containing brackets are treated as
unsplittable, and all theorems below avoid them. -/
def splitHostPort (s : String) : Option (String × String) :=
  if s.toList.contains '[' ∨ s.toList.contains ']' then none
  else if s.toList.contains ':' then
    if (hostPart s.toList).contains ':' then none
    else some (String.mk (hostPart s.toList), String.mk (portPart s.toList))
  else none

/-- Numeric value of a decimal digit string. -/
def digitsVal (cs : List Char) : Nat :=
  cs.foldl (fun a c => a * 10 + (c.toNat - 48)) 0

/-- The TCP rows of the built-in services table of the Go `net` package
(net/lookup.go), consulted by `LookupPort` when the port is a service name
rather than a number. -/
def knownTcpServices : List (String × Nat) :=
  [("ftp", 21), ("ftps", 990), ("gopher", 70), ("http", 80), ("https", 443),
   ("imap2", 143), ("imap3", 220), ("imaps", 993), ("pop3", 110), ("pop3s", 995),
   ("smtp", 25), ("ssh", 22), ("telnet", 23)]

/-- Modelled from the Go standard library: `net.LookupPort("tcp", port)`
succeeds for the empty string (legacy port 0), for decimal numbers up to
65535, and for known service names, modelled here by the built-in services
table of the `net` package.  A machine's `/etc/services` may add entries
beyond that table, so the theorems below only ever assert a failed lookup
for ports that are neither numeric nor listed in it. -/
def lookupPortOk (port : String) : Bool :=
  port = "" ∨
    (port.toList ≠ [] ∧ port.toList.all (·.isDigit) ∧ digitsVal port.toList ≤ 65535) ∨
    (knownTcpServices.lookup port).isSome

/-- Modelled from `IsValidFilename` (pipeline_flags.go lines 504-512): it
calls `os.Stat` and reports `false` only when the operating system rejects the
path as an invalid argument, which on Linux means a NUL byte in the name. -/
def isValidFilename (path : String) : Bool :=
  ¬ path.toList.contains (Char.ofNat 0)

/-- Mirrors `GuessEndpointType` (pipeline_flags.go lines 474-501): `-` is
standard I/O, a splittable `host:port` with a valid port is active TCP
(listening TCP when the host is empty), otherwise targets containing a colon
or invalid filenames are errors and the rest are files. -/
def GuessEndpointType (target : String) : Except String String :=
  if target = "" then .error "Empty endpoint/file is not valid"
  else if target = "-" then .ok "std"
  else
    match splitHostPort target with
    | some (host, port) =>
      if lookupPortOk port then
        if host = "" then .ok "listen" else .ok "tcp"
      else if target.toList.contains ':' ∨ ¬ isValidFilename target then
        .error "Not a filename and not a valid TCP endpoint"
      else .ok "file"
    | none =>
      if target.toList.contains ':' ∨ ¬ isValidFilename target then
        .error "Not a filename and not a valid TCP endpoint"
      else .ok "file"

/-- Mirrors the part loop of `ParseUrlEndpointDescription` (pipeline_flags.go
lines 416-446): each `+`-separated part is either one of the recognised
formats, one of the recognised transports, or a custom transport; duplicate
formats and duplicate transports are conflicts, and the `std` transport
requires the target `-`. -/
def parseEndpointParts : List String → EndpointDescription → Except String EndpointDescription
  | [], res => .ok res
  | part :: rest, res =>
    if allFormats.contains part then
      if res.Format ≠ "" then .error "Multiple formats defined"
      else parseEndpointParts rest { res with Format := part }
    else if res.Typ ≠ "" then .error "Multiple transport types defined"
    else if part = "tcp" ∨ part = "listen" ∨ part = "file" then
      parseEndpointParts rest { res with Typ := part }
    else if part = "std" then
      if res.Target ≠ "-" then .error "Transport std can only be defined with target -"
      else parseEndpointParts rest { res with Typ := "std" }
    else
      parseEndpointParts rest { res with IsCustomTyp := true, Typ := part }

/-- Mirrors `ParseUrlEndpointDescription` (pipeline_flags.go lines 408-458)
after the Go standard library has split the endpoint string: `parts` is
`strings.Split(urlParts[0], "+")` and `target` is `urlParts[1]` of
`strings.SplitN(endpoint, "://", 2)`.  The guard reproduces the checks
`urlParts[0] == ""` (which makes `parts` the singleton `[""]`) and
`urlParts[1] == ""`.  After the part loop the transport is guessed when
still undefined (a guess error is recorded), and the custom-transport /
explicit-format conflict check runs unconditionally, overriding a recorded
guess error. -/
def ParseUrlEndpointDescription (parts : List String) (target : String) :
    Except String EndpointDescription :=
  if parts = [""] ∨ target = "" then .error "Invalid URL endpoint"
  else
    match parseEndpointParts parts ⟨"", "", false, target⟩ with
    | .error e => .error e
    | .ok res =>
      match (if res.Typ = "" then GuessEndpointType target else Except.ok res.Typ) with
      | .error e =>
        if res.IsCustomTyp ∧ res.Format ≠ "" then
          .error "Cannot define the data format for custom transport"
        else .error e
      | .ok t =>
        if res.IsCustomTyp ∧ res.Format ≠ "" then
          .error "Cannot define the data format for custom transport"
        else .ok { res with Typ := t }

/-- Modelled from the Go standard library: `strings.Split(s, sep)` for a
one-character separator, over the character list. -/
def splitOnChar (sep : Char) : List Char → List (List Char)
  | [] => [[]]
  | c :: rest =>
    if c = sep then [] :: splitOnChar sep rest
    else
      match splitOnChar sep rest with
      | [] => [[c]]
      | p :: ps => (c :: p) :: ps

/-- Modelled from the Go standard library: the pieces of
`strings.Split(s, "://")`, over the character list. -/
def splitOnUrlSep : List Char → List (List Char)
  | [] => [[]]
  | ':' :: '/' :: '/' :: rest => [] :: splitOnUrlSep rest
  | c :: rest =>
    match splitOnUrlSep rest with
    | [] => [[c]]
    | p :: ps => (c :: p) :: ps

/-- Mirrors the string-level entry of `ParseUrlEndpointDescription`: the
pieces after the first `://` of `strings.SplitN(endpoint, "://", 2)` are
re-joined, so that only the first `://` separates parts from target. -/
def ParseUrlEndpointDescriptionStr (endpoint : String) : Except String EndpointDescription :=
  match splitOnUrlSep endpoint.toList with
  | [] => .error "Invalid URL endpoint"
  | [_] => .error "Invalid URL endpoint"
  | p :: rest =>
    ParseUrlEndpointDescription ((splitOnChar '+' p).map String.mk)
      (String.mk (List.intercalate [':', '/', '/'] rest))

/-- Mirrors `GuessEndpointDescription` (pipeline_flags.go lines 462-466). -/
def GuessEndpointDescription (endpoint : String) : Except String EndpointDescription :=
  match GuessEndpointType endpoint with
  | .error e => .error e
  | .ok t => .ok ⟨"", t, false, endpoint⟩

/-- Mirrors `ParseEndpointDescription` (pipeline_flags.go lines 385-399):
URL-style strings (containing `://`) go to the URL parser, other strings are
guessed; for outputs a bare `-` without format becomes the custom
console-box endpoint. -/
def ParseEndpointDescription (endpoint : String) (isOutput : Bool) :
    Except String EndpointDescription :=
  if (splitOnUrlSep endpoint.toList).length ≥ 2 then ParseUrlEndpointDescriptionStr endpoint
  else
    match GuessEndpointDescription endpoint with
    | .error e => .error e
    | .ok guessed =>
      if isOutput ∧ guessed.Target = "-" ∧ guessed.Format = "" then
        .ok { guessed with Typ := "box", IsCustomTyp := true }
      else .ok guessed

/-- Mirrors `EndpointDescription.Unmarshaller` (pipeline_flags.go lines
329-332): input formats are always auto-detected, the unmarshaller is `nil`. -/
def EndpointDescription.Unmarshaller (_e : EndpointDescription) : Option Unit := none

/-- The shape of a `MetricSource` built by `CreateInput`: the endpoint type,
the accumulated target list, and whether it came from a custom factory.
Stands for `ConsoleSource`/`TCPSource`/`TcpListenerSource`/`FileSource`. -/
structure SourceDesc where
  typ : String
  targets : List String
  isCustom : Bool
deriving DecidableEq, Repr

/-- A registry entry of `CustomDataSources`: a factory from the target to a
source or an error. -/
def CustomSourceFactory := String → Except String SourceDesc

/-- Mirrors the loop body of `EndpointFactory.CreateInput` (pipeline_flags.go
lines 160-239): `result` is the source built so far (`none` before the first
input), `inputType` the type of the first input. -/
def createInputLoop (customs : List (String × CustomSourceFactory)) :
    List String → Option SourceDesc → String → Except String (Option SourceDesc)
  | [], result, _ => .ok result
  | input :: rest, result, inputType =>
    match ParseEndpointDescription input false with
    | .error e => .error e
    | .ok endpoint =>
      if endpoint.Format ≠ "" then
        .error ("Format cannot be specified for data input: " ++ input)
      else
        match result with
        | none =>
          if endpoint.Typ = "std" ∨ endpoint.Typ = "tcp" ∨ endpoint.Typ = "listen" ∨
              endpoint.Typ = "file" then
            createInputLoop customs rest
              (some ⟨endpoint.Typ, [endpoint.Target], false⟩) endpoint.Typ
          else
            match (customs.lookup endpoint.Typ), endpoint.IsCustomTyp with
            | some factory, true =>
              match factory endpoint.Target with
              | .error e => .error ("Error creating input: " ++ e)
              | .ok src => createInputLoop customs rest (some src) endpoint.Typ
            | _, _ => .error ("Unknown input endpoint type: " ++ endpoint.Typ)
        | some src =>
          if inputType ≠ endpoint.Typ then
            .error "Please provide only one data source"
          else if endpoint.IsCustomTyp then
            .error "Cannot define multiple sources for custom input type"
          else if endpoint.Typ = "std" then
            .error "Cannot read from stdin multiple times"
          else if endpoint.Typ = "listen" then
            .error "Cannot listen for input on multiple TCP ports"
          else if endpoint.Typ = "tcp" ∨ endpoint.Typ = "file" then
            createInputLoop customs rest
              (some { src with targets := src.targets ++ [endpoint.Target] }) inputType
          else .error ("Unknown endpoint type: " ++ endpoint.Typ)

/-- Mirrors `EndpointFactory.CreateInput` (pipeline_flags.go lines 160-239),
parametrised by the `CustomDataSources` registry. -/
def CreateInput (customs : List (String × CustomSourceFactory)) (inputs : List String) :
    Except String (Option SourceDesc) :=
  createInputLoop customs inputs none ""

/-! ## Sample and header model -/

/-- Mirrors `Header`: an ordered field-name list and the `HasTags` flag. -/
structure Header where
  hasTags : Bool
  fields : List String
deriving DecidableEq, Repr

/-- A pipeline-level sample as seen by the batch processor and the sorter:
nanosecond timestamp, tag map, and values.  Values are represented by their
IEEE-754 bit patterns. -/
structure PipeSample where
  time : Int
  tags : List (String × String)
  values : List Nat
deriving DecidableEq, Repr

/-- Modelled from the spec: `Sample.Tag` is not under `src/` (only callers
are); per the data model a tag lookup returns the tag value, with the empty
string for absent tags. -/
def PipeSample.tag (s : PipeSample) (k : String) : String :=
  (s.tags.lookup k).getD ""

/-! ## Batch processor (pipeline_flags.go, `package pipeline`, lines 525-735)

`Sample()`/`Close()` are externally synchronised and the flush worker
handshake makes a triggered flush synchronous, so the processor is embedded
as a sequential state machine: `sampleStep` is one `Sample()` call and
`autoFlushStep` is the timeout branch of `waitAndExecuteFlush`. -/

/-- Downstream `NoopProcessor.Sample` behaviour: forwarding a sample either
succeeds or yields an error. -/
def Downstream := PipeSample → Header → Except String Unit

/-- A `BatchProcessingStep`: takes the batch header and samples, returns new
header and samples or an error.  The header pointer may be nil (`none`). -/
def BatchStep := Option Header → List PipeSample → Except String (Option Header × List PipeSample)

/-- The mutable state of `BatchProcessor` together with its configuration.
`flushTimeoutPos` models `FlushTimeout > 0`. -/
structure BatchState where
  checkerLast : Option Header
  samples : List PipeSample
  lastFlushTag : String
  lastAutoFlushError : Option String
  steps : List BatchStep
  flushTag : String
  flushTimeoutPos : Bool

/-- The outcome of a piece of Go code that may return an error value or
dereference a nil pointer: `nilDeref` is an unrecovered runtime panic, which
crashes the whole process (also from the flush worker goroutine). -/
inductive GoOutcome (α : Type) where
  | ok (a : α)
  | err (e : String)
  | nilDeref
deriving DecidableEq, Repr

/-- Mirrors `BatchProcessor.executeSteps` (lines 693-711): runs the step
chain, stopping early when the batch becomes empty, and propagating step
errors.  Both branches of the loop body evaluate `len(header.Fields)` in
their log call (`log.Warnln` in the empty-batch branch, `log.Println` before
running a step), so whenever a loop iteration starts with a nil current
header — i.e. a previous step returned nil and steps remain — the program
dereferences the nil header and panics. -/
def executeSteps : List BatchStep → List PipeSample → Option Header →
    GoOutcome (List PipeSample × Option Header)
  | [], samples, header => .ok (samples, header)
  | step :: rest, samples, header =>
    if samples.length = 0 then
      match header with
      | none => .nilDeref
      | some hh => .ok (samples, some hh)
    else
      match header with
      | none => .nilDeref
      | some hh =>
        match step (some hh) samples with
        | .error e => .err e
        | .ok (h2, s2) => executeSteps rest s2 h2

/-- The emission loop at the end of `BatchProcessor.executeFlush` (lines
684-688): forwards each flushed sample downstream, wrapping the first error. -/
def emitAll (down : Downstream) : List PipeSample → Header → GoOutcome Unit
  | [], _ => .ok ()
  | s :: rest, h =>
    match down s h with
    | .error e => .err ("Error flushing batch: " ++ e)
    | .ok _ => emitAll down rest h

/-- Mirrors `BatchProcessor.executeFlush` (lines 671-691): nothing happens on
an empty buffer or nil header; otherwise the buffer is cleared, the step
chain runs, a nil returned header is an error, and the resulting samples are
emitted downstream.  A nil-header panic inside the step chain propagates. -/
def executeFlush (down : Downstream) (st : BatchState) (header : Option Header) :
    GoOutcome Unit × BatchState :=
  let samples := st.samples
  if samples.length = 0 ∨ header = none then (.ok (), st)
  else
    let st1 := { st with samples := [] }
    match executeSteps st.steps samples header with
    | .err e => (.err e, st1)
    | .nilDeref => (.nilDeref, st1)
    | .ok (_, none) =>
      (.err "Cannot flush samples because nil-header was returned by last batch processing step", st1)
    | .ok (samples2, some h) => (emitAll down samples2 h, st1)

/-- Mirrors `BatchProcessor.Sample` (lines 583-605).  The header-change check
`HeaderChecker.InitializedHeaderChanged` is not under `src/`; modelled from
the spec it reports a change only once a previous header exists, and records
the new header.  A triggered flush runs synchronously through the condition
variable handshake (`triggerFlush`/`waitAndExecuteFlush`); if the flush
worker panics on a nil header, the process crashes and `Sample` never
returns, so the `nilDeref` outcome short-circuits past the stash handling
and the buffer append that Go would never execute. -/
def sampleStep (down : Downstream) (st : BatchState) (s : PipeSample) (h : Header) :
    GoOutcome Unit × BatchState :=
  let oldHeader := st.checkerLast
  let flush0 : Bool := match st.checkerLast with
    | none => false
    | some last => decide (last ≠ h)
  let st := { st with checkerLast := some h }
  let p1 :=
    if st.flushTag ≠ "" then
      let val := s.tag st.flushTag
      let f : Bool := if oldHeader.isSome then (flush0 || decide (val ≠ st.lastFlushTag)) else flush0
      (f, { st with lastFlushTag := val })
    else (flush0, st)
  match (if p1.1 then executeFlush down p1.2 oldHeader else (.ok (), p1.2)) with
  | (.nilDeref, st2) => (.nilDeref, st2)
  | (.err e, st2) =>
    if st2.flushTimeoutPos then
      (.err e, { st2 with lastAutoFlushError := none, samples := st2.samples ++ [s] })
    else (.err e, { st2 with samples := st2.samples ++ [s] })
  | (.ok _, st2) =>
    if st2.flushTimeoutPos then
      ((match st2.lastAutoFlushError with
        | some e => GoOutcome.err e
        | none => .ok ()),
       { st2 with lastAutoFlushError := none, samples := st2.samples ++ [s] })
    else (.ok (), { st2 with samples := st2.samples ++ [s] })

/-- Mirrors the timeout branch of `BatchProcessor.waitAndExecuteFlush`
(lines 648-655): an automatic flush with the checker's last header; on error
the wrapped message is stashed in `lastAutoFlushError`.  A nil-header panic
crashes the worker (and with it the process). -/
def autoFlushStep (down : Downstream) (st : BatchState) : GoOutcome BatchState :=
  match executeFlush down st st.checkerLast with
  | (.err e, st2) =>
    .ok { st2 with lastAutoFlushError := some ("Error during previous auto-flush: " ++ e) }
  | (.ok _, st2) => .ok st2
  | (.nilDeref, _) => .nilDeref

/-! ## Batch sorter (steps/output_tcp_text.go lines 149-185) -/

/-- Mirrors `SampleSlice.Less` (lines 163-175): walk the configured tag list;
the first differing tag value decides, the timestamp breaks remaining ties. -/
def sampleLess (tags : List String) (a b : PipeSample) : Bool :=
  match tags with
  | [] => decide (a.time < b.time)
  | t :: rest => if a.tag t = b.tag t then sampleLess rest a b else decide (a.tag t < b.tag t)

/-- Mirrors `SampleSorter.ProcessBatch` (lines 181-185): `sort.Sort` of the
Go standard library is an unstable comparison sort whose contract is a
permutation of the input ordered by `Less`; it is modelled by a merge sort
under the complement order, which realises the same contract.  The header is
returned unchanged and no error is possible. -/
def SampleSorter.ProcessBatch (tags : List String) (header : Header)
    (samples : List PipeSample) : Header × List PipeSample :=
  (header, samples.mergeSort (fun a b => ! sampleLess tags b a))

/-- The ordering stated by the spec, written from its words for comparison
with the code order: sort lexicographically by the values of the listed tags,
with the timestamp as the final tiebreak. -/
def specTagOrder (tags : List String) (a b : PipeSample) : Prop :=
  List.Lex (· < ·) (tags.map a.tag) (tags.map b.tag) ∨
    (tags.map a.tag = tags.map b.tag ∧ a.time ≤ b.time)

/-! ## Binary marshaller (analysis-pipeline/analysis_basic.go, `package
sample`, lines 265-433)

Bytes are naturals below 256; a `bufio.Reader` is the list of bytes still
unread.  A wire sample carries the `int64` nanosecond timestamp, the
serialised tag string, and the `Float64bits` patterns of its values. -/

/-- The wire-level sample of the marshalling layer.  `Sample.TagString` and
`Sample.ParseTagString` are not under `src/` (only their callers are); per
the spec tags serialise to the canonical `k1=v1 k2=v2` form with sorted keys
and parsing is the inverse, so the tag state is modelled by this canonical
serialised byte string. -/
structure Sample where
  time : Int
  tagString : List Nat
  values : List Nat
deriving DecidableEq, Repr

/-- Big-endian 8-byte encoding, `binary.BigEndian.PutUint64`. -/
def be64 (n : Nat) : List Nat :=
  [n / 2 ^ 56 % 256, n / 2 ^ 48 % 256, n / 2 ^ 40 % 256, n / 2 ^ 32 % 256,
   n / 2 ^ 24 % 256, n / 2 ^ 16 % 256, n / 2 ^ 8 % 256, n % 256]

/-- Big-endian decoding, `binary.BigEndian.Uint64` on the first 8 bytes. -/
def beU64 (bs : List Nat) : Nat :=
  bs.foldl (fun acc b => acc * 256 + b) 0

/-- The Go conversion `uint64(t)` of an `int64`. -/
def uint64OfInt (t : Int) : Nat := (t % (2 ^ 64 : Int)).toNat

/-- The Go conversion `int64(n)` of a `uint64`, as used by
`time.Unix(0, int64(timeVal))`. -/
def int64OfUInt64 (n : Nat) : Int :=
  if n < 2 ^ 63 then (n : Int) else (n : Int) - 2 ^ 64

/-- Modelled from the spec: the validity check of `Sample.ParseTagString`
(not under `src/`): the empty string is legal, otherwise every
space-separated piece must be a `key=value` pair. -/
def wellFormedTagString (s : List Nat) : Bool :=
  s = [] ∨ (s.splitOn 32).all (fun part => part.contains 61)

/-- Modelled from the spec: `Sample.ParseTagString` parses the serialised
tag form back into the tag state (here its canonical string), failing on
malformed input. -/
def ParseTagString (s : List Nat) : Option (List Nat) :=
  if wellFormedTagString s then some s else none

/-- Mirrors `BinaryMarshaller.WriteSample` (lines 322-351): 8 timestamp
bytes, then for tagged headers the tag string and a `\n` separator, then one
big-endian 8-byte group per value. -/
def WriteSample (s : Sample) (h : Header) : List Nat :=
  be64 (uint64OfInt s.time)
    ++ (if h.hasTags then s.tagString ++ [10] else [])
    ++ (s.values.map be64).flatten

/-- `io.ReadFull`: take exactly `n` bytes or fail. -/
def readFull (n : Nat) (input : List Nat) : Option (List Nat × List Nat) :=
  if n ≤ input.length then some (input.take n, input.drop n) else none

/-- `bufio.Reader.ReadBytes(sep)`: read up to and including the first
separator byte, failing at end of input. -/
def readBytesSep (sep : Nat) (input : List Nat) : Option (List Nat × List Nat) :=
  if input.findIdx (· = sep) < input.length then
    some (input.take (input.findIdx (· = sep) + 1), input.drop (input.findIdx (· = sep) + 1))
  else none

/-- Mirrors `BinaryMarshaller.ReadSampleData` (lines 353-385): read the
minimal frame, then for tagged headers either extend by the bytes displaced
by the tag terminator found inside the minimal frame, or read the rest of the
tag and the full value block.  Returns the frame and the unread remainder. -/
def ReadSampleData (h : Header) (input : List Nat) : Option (List Nat × List Nat) :=
  match readFull (8 + 8 * h.fields.length) input with
  | none => none
  | some (data, rest) =>
    if ¬ h.hasTags then some (data, rest)
    else
      if (data.drop 8).findIdx (· = 10) < 8 * h.fields.length then
        match readFull ((data.drop 8).findIdx (· = 10) + 1) rest with
        | none => none
        | some (extra, rest2) => some (data ++ extra, rest2)
      else
        match readBytesSep 10 rest with
        | none => none
        | some (tagRest, rest2) =>
          match readFull (8 * h.fields.length) rest2 with
          | none => none
          | some (vals, rest3) => some (data ++ tagRest ++ vals, rest3)

/-- The value loop of `BinaryMarshaller.ParseSample` (lines 426-431): decode
`n` big-endian 8-byte groups. -/
def parseValues : Nat → List Nat → List Nat
  | 0, _ => []
  | n + 1, data => beU64 (data.take 8) :: parseValues n (data.drop 8)

/-- Mirrors `BinaryMarshaller.ParseSample` (lines 394-433): check the
minimal size, decode the timestamp, for tagged headers locate the tag
terminator, check the exact frame length and parse the tag string, then
decode the values. -/
def ParseSample (h : Header) (data : List Nat) : Option Sample :=
  if data.length < 8 + 8 * h.fields.length then none
  else
    if h.hasTags then
      if ¬ (data.drop 8).findIdx (· = 10) < (data.drop 8).length then none
      else if (data.drop 8).length ≠ (data.drop 8).findIdx (· = 10) + 1 + 8 * h.fields.length then
        none
      else
        match ParseTagString ((data.drop 8).take ((data.drop 8).findIdx (· = 10))) with
        | none => none
        | some tag =>
          some ⟨int64OfUInt64 (beU64 (data.take 8)), tag,
            parseValues h.fields.length ((data.drop 8).drop ((data.drop 8).findIdx (· = 10) + 1))⟩
    else
      some ⟨int64OfUInt64 (beU64 (data.take 8)), [],
        parseValues h.fields.length (data.drop 8)⟩

/-! ## TCP active sink (sample/transport_tcp.go lines 94-168)

The sink state holds the stop flag (`golib.OneshotCondition`, modelled as a
Boolean), the current write connection with its sample queue, and the last
header.  Side effects (dialing, enqueuing, closing the connection) are
recorded in an effect list; the dial outcome is an oracle parameter. -/

/-- The `tcpWriteConn`: whether its network connection is still open
(`conn.conn != nil`) and its buffered sample channel. -/
structure TCPConnState where
  connOpen : Bool
  queue : List Sample
deriving DecidableEq, Repr

/-- The observable state of a `TCPSink`. -/
structure TCPSinkState where
  stopped : Bool
  conn : Option TCPConnState
  lastHeader : Header
deriving DecidableEq, Repr

/-- Externally visible actions of the sink. -/
inductive TCPEffect where
  | dial
  | enqueue (s : Sample)
  | closeConn
deriving DecidableEq, Repr

/-- Modelled from the spec: `Sample.Check` is not under `src/`; per the data
model it fails when the value count does not match the header. -/
def Sample.Check (s : Sample) (h : Header) : Except String Unit :=
  if s.values.length = h.fields.length then .ok () else .error "Unexpected number of values"

/-- Mirrors `TCPSink.assertConnection` (lines 153-168): dial only when no
connection exists; on success install a fresh write connection. -/
def assertConnection (dialOk : Bool) (st : TCPSinkState) :
    Except String Unit × TCPSinkState × List TCPEffect :=
  match st.conn with
  | some _ => (.ok (), st, [])
  | none =>
    if dialOk then (.ok (), { st with conn := some ⟨true, []⟩ }, [.dial])
    else (.error "dial failed", st, [.dial])

/-- Mirrors `TCPSink.Close` (lines 118-122): `OneshotCondition.Enable` runs
the close callback once, closing the connection and marking the sink
stopped. -/
def TCPSink.Close (st : TCPSinkState) : TCPSinkState :=
  if st.stopped then st else { st with stopped := true, conn := none }

/-- Mirrors `TCPSink.Header` (lines 124-133): when stopped, only the
"already stopped" error; otherwise close the current connection, record the
header and re-dial. -/
def TCPSink.Header (dialOk : Bool) (st : TCPSinkState) (h : Header) :
    Except String Unit × TCPSinkState × List TCPEffect :=
  if st.stopped then (.error "TCP sink already stopped", st, [])
  else
    let st1 : TCPSinkState := { st with conn := none, lastHeader := h }
    match assertConnection dialOk st1 with
    | (err, st2, eff) => (err, st2, TCPEffect.closeConn :: eff)

/-- Mirrors `TCPSink.Sample` (lines 135-151): when stopped, only the
"already stopped" error; otherwise check the sample, clean up a dead
connection, ensure a connection and enqueue. -/
def TCPSink.Sample (dialOk : Bool) (st : TCPSinkState) (s : Sample) (h : GoBitflow.Header) :
    Except String Unit × TCPSinkState × List TCPEffect :=
  if st.stopped then (.error "TCP sink already stopped", st, [])
  else
    match s.Check h with
    | .error e => (.error e, st, [])
    | .ok _ =>
      let running := match st.conn with
        | some c => c.connOpen
        | none => false
      let p1 : TCPSinkState × List TCPEffect :=
        if running = false then ({ st with conn := none }, [.closeConn]) else (st, [])
      match assertConnection dialOk p1.1 with
      | (.error e, st2, eff2) => (.error e, st2, p1.2 ++ eff2)
      | (.ok _, st2, eff2) =>
        match st2.conn with
        | some c =>
          (.ok (), { st2 with conn := some { c with queue := c.queue ++ [s] } },
           p1.2 ++ eff2 ++ [.enqueue s])
        | none => (.ok (), st2, p1.2 ++ eff2)

/-! ## PCA projection (unnamed/part_000, `package analysis`) -/

/-- A `data2go.Sample` as touched by the PCA code: value vector (bit
patterns) and metadata (tags). -/
structure PCASample where
  values : List Nat
  tags : List (String × String)
deriving DecidableEq, Repr

/-- Outcome of running a Go function that may dereference a nil pointer. -/
inductive GoExec (α : Type) where
  | ok (a : α)
  | nilDeref
deriving DecidableEq, Repr

/-- A `PCAProjection` (part_000 lines 105-109); the gonum matrix action of
`PCAProjection.Vector` is kept abstract as the function `vectorMap`. -/
structure PCAProjection where
  vectorMap : List Nat → List Nat

/-- Mirrors `SetSampleValues` (part_000 lines 43-52): both branches start by
reading `s.Values`, so a nil receiver dereferences nil; otherwise the value
slice is replaced by the given values. -/
def SetSampleValues (s : Option PCASample) (values : List Nat) : GoExec PCASample :=
  match s with
  | none => .nilDeref
  | some smp => .ok { smp with values := values }

/-- Modelled from the spec: `Sample.CopyMetadataFrom` is not under `src/`;
it copies timestamp and tags onto the receiver, dereferencing a nil
receiver. -/
def CopyMetadataFrom (dst : Option PCASample) (src : PCASample) : GoExec PCASample :=
  match dst with
  | none => .nilDeref
  | some d => .ok { d with tags := src.tags }

/-- Mirrors `PCAProjection.Sample` (part_000 lines 131-136): the named
return value `result` is never assigned, so `SetSampleValues` and
`CopyMetadataFrom` are invoked on a nil `*Sample`. -/
def PCAProjection.Sample (proj : PCAProjection) (s : PCASample) : GoExec PCASample :=
  let result : Option PCASample := none
  let values := proj.vectorMap s.values
  match SetSampleValues result values with
  | .nilDeref => .nilDeref
  | .ok _ =>
    match CopyMetadataFrom result s with
    | .nilDeref => .nilDeref
    | .ok r => .ok r

/-! ## Metric variance filter (unnamed/part_004 lines 267-320)

Floating-point statistics are modelled over the real numbers; the sign
behaviour under scrutiny is unaffected by rounding.  The `onlinestats.Running`
accumulator is not under `src/`: it is the Welford accumulator of the
vendored go-onlinestats package, whose `Mean` is the arithmetic mean and
whose `Stddev` is the square root of `m2/(n-1)`; in exact arithmetic `m2` is
the sum of squared deviations from the mean. -/

/-- Values of one metric column across a batch; `samples` holds each
sample's value vector. -/
noncomputable def column (samples : List (List ℝ)) (i : Nat) : List ℝ :=
  samples.map (fun row => row.getD i 0)

/-- `onlinestats.Running.Mean()`. -/
noncomputable def runningMean (xs : List ℝ) : ℝ := xs.sum / xs.length

/-- `onlinestats.Running.Var()`: sum of squared deviations over `n-1`. -/
noncomputable def runningVar (xs : List ℝ) : ℝ :=
  ((xs.map fun x => (x - runningMean xs) ^ 2).sum) / (xs.length - 1)

/-- `onlinestats.Running.Stddev()`. -/
noncomputable def runningStddev (xs : List ℝ) : ℝ := Real.sqrt (runningVar xs)

/-- The weighted standard deviation computed by `NewMetricVarianceFilter`
(part_004 lines 308-311): `weighted_stddev /= mean` when the mean is
non-zero — note the signed division. -/
noncomputable def weightedStddev (xs : List ℝ) : ℝ :=
  if runningMean xs ≠ 0 then runningStddev xs / runningMean xs else runningStddev xs

/-- The quantity named by the spec, written from its words for comparison:
the standard deviation divided by the absolute value of the mean, or the raw
standard deviation when the mean is zero. -/
noncomputable def specWeightedStddev (xs : List ℝ) : ℝ :=
  if runningMean xs ≠ 0 then runningStddev xs / |runningMean xs| else runningStddev xs

/-- The keep loop of `NewMetricVarianceFilter.ConstructIndices` (part_004
lines 305-315) over the indexed field list: a field survives when its
weighted standard deviation reaches the threshold. -/
noncomputable def varianceFilterLoop (minW : ℝ) (samples : List (List ℝ)) :
    List (Nat × String) → List Nat × List String
  | [] => ([], [])
  | (i, f) :: rest =>
    let r := varianceFilterLoop minW samples rest
    if weightedStddev (column samples i) ≥ minW then (i :: r.1, f :: r.2) else r

/-- Mirrors the `ConstructIndices` closure of `NewMetricVarianceFilter`
(part_004 lines 297-315). -/
noncomputable def MetricVarianceFilterIndices (minW : ℝ) (fields : List String)
    (samples : List (List ℝ)) : List Nat × List String :=
  varianceFilterLoop minW samples fields.enum

/-- Mirrors `AbstractBatchMetricMapper.ProcessBatch` (part_004 lines
272-284) specialised to the variance filter: the new header keeps the
surviving fields and every sample is restricted to the surviving columns. -/
noncomputable def MetricVarianceFilterProcessBatch (minW : ℝ) (h : Header)
    (samples : List (List ℝ)) : Header × List (List ℝ) :=
  let r := MetricVarianceFilterIndices minW h.fields samples
  (⟨h.hasTags, r.2⟩, samples.map (fun row => r.1.map (fun i => row.getD i 0)))

/-! # Theorems -/

/-! ## C1: binary sample round-trip -/

/-- Big-endian encode/decode round-trip on 64-bit quantities. -/
theorem beU64_be64 (n : Nat) (h : n < 2 ^ 64) : beU64 (be64 n) = n := by
  simp only [be64, beU64, List.foldl]
  omega

/-- `uint64(t)` fits in 64 bits. -/
theorem uint64OfInt_lt (t : Int) : uint64OfInt t < 2 ^ 64 := by
  simp only [uint64OfInt]
  omega

/-- The `int64 → uint64 → int64` timestamp conversion round-trips on the
`int64` range. -/
theorem int64_roundtrip (t : Int) (h1 : -(2 ^ 63) ≤ t) (h2 : t < 2 ^ 63) :
    int64OfUInt64 (uint64OfInt t) = t := by
  simp only [int64OfUInt64, uint64OfInt]
  split <;> omega

/-- `findIdx` finds the sentinel right after a clean run. -/
theorem findIdx_append_sentinel {α : Type} (p : α → Bool) (xs : List α) (y : α) (ys : List α)
    (hxs : ∀ x ∈ xs, p x = false) (hy : p y = true) :
    (xs ++ y :: ys).findIdx p = xs.length := by
  induction xs with
  | nil => simp [List.findIdx_cons, hy]
  | cons a rest ih =>
    have ha := hxs a (by simp)
    simp [List.findIdx_cons, ha, ih (fun x hx => hxs x (by simp [hx]))]

/-- The value block of a sample is eight bytes per value. -/
theorem length_flatten_be64 (vs : List Nat) : ((vs.map be64).flatten).length = 8 * vs.length := by
  induction vs with
  | nil => rfl
  | cons v rest ih =>
    simp only [List.map_cons, List.flatten_cons, List.length_append, List.length_cons, ih]
    simp [be64]
    omega

/-- Decoding the value block recovers the values bit-identically. -/
theorem parseValues_flatten (vs : List Nat) (hvs : ∀ v ∈ vs, v < 2 ^ 64) :
    parseValues vs.length ((vs.map be64).flatten) = vs := by
  induction vs with
  | nil => rfl
  | cons v rest ih =>
    simp only [List.map_cons, List.flatten_cons, List.length_cons, parseValues]
    rw [show (8 : Nat) = (be64 v).length from rfl, List.take_left, List.drop_left]
    rw [beU64_be64 v (hvs v (by simp))]
    rw [ih (fun x hx => hvs x (by simp [hx]))]

/-- `BinaryMarshaller.ReadSampleData` consumes exactly the frame written by
`BinaryMarshaller.WriteSample` and leaves the remaining stream untouched,
whenever the tag string is free of the separator byte. -/
theorem readSampleData_write (h : Header) (s : Sample) (rest : List Nat)
    (hlen : s.values.length = h.fields.length)
    (htag : ∀ b ∈ s.tagString, b ≠ 10) :
    ReadSampleData h (WriteSample s h ++ rest) = some (WriteSample s h, rest) := by
  have hVlen : ((s.values.map be64).flatten).length = 8 * h.fields.length := by
    rw [length_flatten_be64, hlen]
  have hDlen : (be64 (uint64OfInt s.time)).length = 8 := rfl
  cases hht : h.hasTags with
  | false =>
    have hW : WriteSample s h
        = be64 (uint64OfInt s.time) ++ (s.values.map be64).flatten := by
      simp [WriteSample, hht]
    have hWlen : (WriteSample s h).length = 8 + 8 * h.fields.length := by
      rw [hW, List.length_append, hDlen, hVlen]
    have hfull : readFull (8 + 8 * h.fields.length) (WriteSample s h ++ rest)
        = some (WriteSample s h, rest) := by
      rw [readFull, if_pos (by rw [List.length_append, hWlen]; omega)]
      rw [← hWlen, List.take_left, List.drop_left]
    rw [ReadSampleData, hfull]
    simp [hht]
  | true =>
    have hW : WriteSample s h
        = be64 (uint64OfInt s.time)
          ++ ((s.tagString ++ [10]) ++ (s.values.map be64).flatten) := by
      simp [WriteSample, hht]
    have hS : WriteSample s h ++ rest
        = be64 (uint64OfInt s.time)
          ++ (s.tagString ++ 10 :: ((s.values.map be64).flatten ++ rest)) := by
      rw [hW]
      simp [List.append_assoc]
    have hWlen : (WriteSample s h).length
        = 8 + (s.tagString.length + 1 + 8 * h.fields.length) := by
      rw [hW]
      simp only [List.length_append, hDlen, hVlen, List.length_cons, List.length_nil]
    have hlen1 : 8 + 8 * h.fields.length ≤ (WriteSample s h ++ rest).length := by
      rw [List.length_append, hWlen]
      omega
    have hfull : readFull (8 + 8 * h.fields.length) (WriteSample s h ++ rest)
        = some ((WriteSample s h ++ rest).take (8 + 8 * h.fields.length),
                (WriteSample s h ++ rest).drop (8 + 8 * h.fields.length)) := by
      rw [readFull, if_pos hlen1]
    have hdata : (WriteSample s h ++ rest).take (8 + 8 * h.fields.length)
        = be64 (uint64OfInt s.time)
          ++ (s.tagString ++ 10 :: ((s.values.map be64).flatten ++ rest)).take
              (8 * h.fields.length) := by
      rw [hS, show 8 + 8 * h.fields.length
        = (be64 (uint64OfInt s.time)).length + 8 * h.fields.length by rw [hDlen]]
      exact List.take_append _
    have hrem : (WriteSample s h ++ rest).drop (8 + 8 * h.fields.length)
        = (s.tagString ++ 10 :: ((s.values.map be64).flatten ++ rest)).drop
            (8 * h.fields.length) := by
      rw [hS, show 8 + 8 * h.fields.length
        = (be64 (uint64OfInt s.time)).length + 8 * h.fields.length by rw [hDlen]]
      exact List.drop_append _
    have hdrop8 : ∀ X : List Nat,
        (be64 (uint64OfInt s.time) ++ X).drop 8 = X := by
      intro X
      exact List.drop_left' hDlen
    rw [ReadSampleData, hfull]
    simp only [hht, not_true_eq_false, if_false, hdata, hrem, hdrop8]
    by_cases hg : s.tagString.length < 8 * h.fields.length
    · obtain ⟨m, hm⟩ : ∃ m, 8 * h.fields.length - s.tagString.length = m + 1 :=
        ⟨8 * h.fields.length - s.tagString.length - 1, by omega⟩
      have hmlt : m < 8 * h.fields.length := by omega
      have htake8n : (s.tagString ++ 10 :: ((s.values.map be64).flatten ++ rest)).take
            (8 * h.fields.length)
          = s.tagString ++ 10 :: ((s.values.map be64).flatten ++ rest).take m := by
        rw [show 8 * h.fields.length = s.tagString.length + (m + 1) by omega,
          List.take_append, List.take_succ_cons]
      have hdropT : (s.tagString ++ 10 :: ((s.values.map be64).flatten ++ rest)).drop
            (8 * h.fields.length)
          = ((s.values.map be64).flatten ++ rest).drop m := by
        rw [show 8 * h.fields.length = s.tagString.length + (m + 1) by omega,
          List.drop_append, List.drop_succ_cons]
      have hfind : (s.tagString ++ 10 :: ((s.values.map be64).flatten ++ rest).take m).findIdx
            (· = 10) = s.tagString.length := by
        refine findIdx_append_sentinel _ _ _ _ ?_ (by simp)
        intro x hx
        simp [htag x hx]
      have hW1 : ((s.values.map be64).flatten ++ rest).take m
          = ((s.values.map be64).flatten).take m := by
        rw [List.take_append_eq_append_take,
          show m - ((s.values.map be64).flatten).length = 0 by rw [hVlen]; omega]
        simp
      have hdropm : ((s.values.map be64).flatten ++ rest).drop m
          = ((s.values.map be64).flatten).drop m ++ rest := by
        rw [List.drop_append_eq_append_drop,
          show m - ((s.values.map be64).flatten).length = 0 by rw [hVlen]; omega]
        simp
      have hlendropm : (((s.values.map be64).flatten).drop m).length
          = s.tagString.length + 1 := by
        rw [List.length_drop, hVlen]
        omega
      have hfull2 : readFull (s.tagString.length + 1)
            (((s.values.map be64).flatten ++ rest).drop m)
          = some (((s.values.map be64).flatten).drop m, rest) := by
        rw [readFull, hdropm,
          if_pos (by rw [List.length_append, hlendropm]; omega)]
        rw [List.take_left' hlendropm, List.drop_left' hlendropm]
      rw [htake8n, hfind, if_pos hg, hdropT, hfull2]
      simp only []
      rw [hW1, hW]
      simp [List.append_assoc, List.cons_append, List.nil_append, List.take_append_drop]
    · have htake8n : (s.tagString ++ 10 :: ((s.values.map be64).flatten ++ rest)).take
            (8 * h.fields.length)
          = s.tagString.take (8 * h.fields.length) := by
        rw [List.take_append_eq_append_take,
          show 8 * h.fields.length - s.tagString.length = 0 by omega]
        simp
      have hlentake : (s.tagString.take (8 * h.fields.length)).length
          = 8 * h.fields.length := by
        rw [List.length_take]
        omega
      have hfind : (s.tagString.take (8 * h.fields.length)).findIdx (· = 10)
          = 8 * h.fields.length := by
        have hall := List.findIdx_eq_length.mpr
          (fun x hx => by simp [htag x (List.mem_of_mem_take hx)] :
            ∀ x ∈ s.tagString.take (8 * h.fields.length), decide (x = 10) = false)
        rw [hall, hlentake]
      have hdropT : (s.tagString ++ 10 :: ((s.values.map be64).flatten ++ rest)).drop
            (8 * h.fields.length)
          = s.tagString.drop (8 * h.fields.length)
            ++ 10 :: ((s.values.map be64).flatten ++ rest) := by
        rw [List.drop_append_eq_append_drop,
          show 8 * h.fields.length - s.tagString.length = 0 by omega]
        simp
      have hfind2 : (s.tagString.drop (8 * h.fields.length)
            ++ 10 :: ((s.values.map be64).flatten ++ rest)).findIdx (· = 10)
          = (s.tagString.drop (8 * h.fields.length)).length := by
        refine findIdx_append_sentinel _ _ _ _ ?_ (by simp)
        intro x hx
        simp [htag x (List.mem_of_mem_drop hx)]
      have hbytes : readBytesSep 10 (s.tagString.drop (8 * h.fields.length)
            ++ 10 :: ((s.values.map be64).flatten ++ rest))
          = some (s.tagString.drop (8 * h.fields.length) ++ [10],
                  (s.values.map be64).flatten ++ rest) := by
        rw [readBytesSep, hfind2]
        rw [if_pos (by
          rw [List.length_append, List.length_cons]
          omega)]
        rw [show (s.tagString.drop (8 * h.fields.length)).length + 1
          = (s.tagString.drop (8 * h.fields.length)).length + (0 + 1) by omega]
        rw [List.take_append, List.take_succ_cons, List.take_zero,
          List.drop_append, List.drop_succ_cons, List.drop_zero]
      have hfull3 : readFull (8 * h.fields.length) ((s.values.map be64).flatten ++ rest)
          = some ((s.values.map be64).flatten, rest) := by
        rw [readFull, if_pos (by rw [List.length_append, hVlen]; omega)]
        rw [List.take_left' hVlen, List.drop_left' hVlen]
      rw [htake8n, hfind, if_neg (by omega), hdropT, hbytes]
      simp only []
      rw [hfull3]
      simp only []
      rw [hW]
      simp [List.append_assoc, List.cons_append, List.nil_append, List.take_append_drop]
      rw [← List.append_assoc, List.take_append_drop]

/-- `BinaryMarshaller.ParseSample` decodes the frame written by
`BinaryMarshaller.WriteSample` back into the original sample. -/
theorem parseSample_write (h : Header) (s : Sample)
    (hlen : s.values.length = h.fields.length)
    (hvals : ∀ v ∈ s.values, v < 2 ^ 64)
    (htime1 : -(2 ^ 63) ≤ s.time) (htime2 : s.time < 2 ^ 63)
    (htag : ∀ b ∈ s.tagString, b ≠ 10)
    (hwf : wellFormedTagString s.tagString = true) :
    ParseSample h (WriteSample s h)
      = some ⟨s.time, if h.hasTags then s.tagString else [], s.values⟩ := by
  have hVlen : ((s.values.map be64).flatten).length = 8 * h.fields.length := by
    rw [length_flatten_be64, hlen]
  have hDlen : (be64 (uint64OfInt s.time)).length = 8 := rfl
  have htimeRT : int64OfUInt64 (beU64 (be64 (uint64OfInt s.time))) = s.time := by
    rw [beU64_be64 _ (uint64OfInt_lt s.time), int64_roundtrip s.time htime1 htime2]
  cases hht : h.hasTags with
  | false =>
    have hW : WriteSample s h
        = be64 (uint64OfInt s.time) ++ (s.values.map be64).flatten := by
      simp [WriteSample, hht]
    have hWlen : (WriteSample s h).length = 8 + 8 * h.fields.length := by
      rw [hW, List.length_append, hDlen, hVlen]
    have htake : (WriteSample s h).take 8 = be64 (uint64OfInt s.time) := by
      rw [hW]
      exact List.take_left' hDlen
    have hdrop : (WriteSample s h).drop 8 = (s.values.map be64).flatten := by
      rw [hW]
      exact List.drop_left' hDlen
    rw [ParseSample, if_neg (by rw [hWlen]; omega), if_neg (by simp [hht])]
    rw [htake, hdrop, htimeRT]
    rw [show h.fields.length = s.values.length from hlen.symm,
      parseValues_flatten s.values hvals]
    simp [hht]
  | true =>
    have hW : WriteSample s h
        = be64 (uint64OfInt s.time)
          ++ (s.tagString ++ 10 :: (s.values.map be64).flatten) := by
      simp [WriteSample, hht, List.append_assoc]
    have hWlen : (WriteSample s h).length
        = 8 + (s.tagString.length + 1 + 8 * h.fields.length) := by
      rw [hW]
      simp only [List.length_append, hDlen, hVlen, List.length_cons]
      omega
    have htake : (WriteSample s h).take 8 = be64 (uint64OfInt s.time) := by
      rw [hW]
      exact List.take_left' hDlen
    have hdrop : (WriteSample s h).drop 8
        = s.tagString ++ 10 :: (s.values.map be64).flatten := by
      rw [hW]
      exact List.drop_left' hDlen
    have hfind : (s.tagString ++ 10 :: (s.values.map be64).flatten).findIdx (· = 10)
        = s.tagString.length := by
      refine findIdx_append_sentinel _ _ _ _ ?_ (by simp)
      intro x hx
      simp [htag x hx]
    have hrestlen : (s.tagString ++ 10 :: (s.values.map be64).flatten).length
        = s.tagString.length + 1 + 8 * h.fields.length := by
      simp only [List.length_append, List.length_cons, hVlen]
      omega
    rw [ParseSample, if_neg (by rw [hWlen]; omega), if_pos hht]
    rw [hdrop, hfind]
    rw [if_neg (by rw [hrestlen]; omega)]
    rw [if_neg (by rw [hrestlen]; omega)]
    rw [List.take_left, ParseTagString, if_pos hwf]
    rw [show s.tagString.length + 1 = s.tagString.length + (0 + 1) by omega,
      List.drop_append, List.drop_succ_cons, List.drop_zero]
    rw [htake, htimeRT, show h.fields.length = s.values.length from hlen.symm,
      parseValues_flatten s.values hvals]
    simp [hht]

/-- C1: for a sample matching its header, with tags free of the separator
byte and well formed, reading back the bytes produced by
`BinaryMarshaller.WriteSample` via `ReadSampleData` followed by
`ParseSample` yields the very frame and a sample with the same nanosecond
timestamp, the same tag string (when the header has tags) and bit-identical
values in the same order. -/
theorem binary_marshaller_roundtrip (h : Header) (s : Sample) (rest : List Nat)
    (hlen : s.values.length = h.fields.length)
    (hvals : ∀ v ∈ s.values, v < 2 ^ 64)
    (htime1 : -(2 ^ 63) ≤ s.time) (htime2 : s.time < 2 ^ 63)
    (htag : ∀ b ∈ s.tagString, b ≠ 10)
    (hwf : wellFormedTagString s.tagString = true) :
    ReadSampleData h (WriteSample s h ++ rest) = some (WriteSample s h, rest) ∧
    ParseSample h (WriteSample s h)
      = some ⟨s.time, if h.hasTags then s.tagString else [], s.values⟩ :=
  ⟨readSampleData_write h s rest hlen htag,
   parseSample_write h s hlen hvals htime1 htime2 htag hwf⟩

/-- Closed instance for `binary_marshaller_roundtrip`: a tagged two-field
header, the tag string `host=a`, and two value bit patterns round-trip
through write, read and parse. -/
theorem binary_marshaller_roundtrip_witness :
    ReadSampleData ⟨true, ["cpu", "mem"]⟩
        (WriteSample ⟨1000000000, [104, 111, 115, 116, 61, 97], [1, 2]⟩
          ⟨true, ["cpu", "mem"]⟩ ++ [7, 7])
      = some (WriteSample ⟨1000000000, [104, 111, 115, 116, 61, 97], [1, 2]⟩
          ⟨true, ["cpu", "mem"]⟩, [7, 7]) ∧
    ParseSample ⟨true, ["cpu", "mem"]⟩
        (WriteSample ⟨1000000000, [104, 111, 115, 116, 61, 97], [1, 2]⟩
          ⟨true, ["cpu", "mem"]⟩)
      = some ⟨1000000000,
          if (⟨true, ["cpu", "mem"]⟩ : Header).hasTags
            then [104, 111, 115, 116, 61, 97] else [], [1, 2]⟩ :=
  binary_marshaller_roundtrip ⟨true, ["cpu", "mem"]⟩
    ⟨1000000000, [104, 111, 115, 116, 61, 97], [1, 2]⟩ [7, 7]
    (by decide) (by decide) (by decide) (by decide) (by decide) (by decide)

/-! ## C7: batch sorter ordering -/

/-- `SampleSlice.Less` is asymmetric. -/
theorem sampleLess_asymm (tags : List String) (a b : PipeSample)
    (h : sampleLess tags a b = true) : sampleLess tags b a = false := by
  induction tags with
  | nil =>
    simp only [sampleLess, decide_eq_true_eq] at h
    simp only [sampleLess, decide_eq_false_iff_not]
    omega
  | cons t rest ih =>
    by_cases he : a.tag t = b.tag t
    · simp only [sampleLess] at h ⊢
      rw [if_pos he] at h
      rw [if_pos he.symm]
      exact ih h
    · simp only [sampleLess] at h ⊢
      rw [if_neg he] at h
      rw [if_neg (Ne.symm he)]
      simp only [decide_eq_true_eq] at h
      simp only [decide_eq_false_iff_not]
      exact lt_asymm h

/-- The complement order used for sorting is total. -/
theorem sampleLess_total (tags : List String) (a b : PipeSample) :
    (!sampleLess tags b a || !sampleLess tags a b) = true := by
  by_cases h : sampleLess tags b a = true
  · simp [sampleLess_asymm tags b a h]
  · simp [Bool.not_eq_true] at h
    simp [h]

/-- Negative transitivity of `SampleSlice.Less`: the complement order is
transitive. -/
theorem sampleLess_neg_trans (tags : List String) (a b c : PipeSample)
    (hab : sampleLess tags b a = false) (hbc : sampleLess tags c b = false) :
    sampleLess tags c a = false := by
  induction tags with
  | nil =>
    simp only [sampleLess, decide_eq_false_iff_not] at hab hbc ⊢
    omega
  | cons t rest ih =>
    simp only [sampleLess] at hab hbc ⊢
    by_cases h1 : b.tag t = a.tag t
    · rw [if_pos h1] at hab
      by_cases h2 : c.tag t = b.tag t
      · rw [if_pos h2] at hbc
        rw [if_pos (h2.trans h1)]
        exact ih hab hbc
      · rw [if_neg h2] at hbc
        simp only [decide_eq_false_iff_not] at hbc
        have hBC : b.tag t < c.tag t :=
          lt_of_le_of_ne (not_lt.mp hbc) (Ne.symm h2)
        have hCA : ¬ c.tag t = a.tag t := fun h => h2 (h.trans h1.symm)
        rw [if_neg hCA]
        simp only [decide_eq_false_iff_not]
        intro hlt
        rw [← h1] at hlt
        exact lt_asymm hBC hlt
    · rw [if_neg h1] at hab
      simp only [decide_eq_false_iff_not] at hab
      have hAB : a.tag t < b.tag t :=
        lt_of_le_of_ne (not_lt.mp hab) (Ne.symm h1)
      by_cases h2 : c.tag t = b.tag t
      · have hCA : ¬ c.tag t = a.tag t := by
          rw [h2]
          exact fun h => h1 h
        rw [if_neg hCA]
        simp only [decide_eq_false_iff_not]
        intro hlt
        rw [h2] at hlt
        exact lt_asymm hAB hlt
      · rw [if_neg h2] at hbc
        simp only [decide_eq_false_iff_not] at hbc
        have hBC : b.tag t < c.tag t :=
          lt_of_le_of_ne (not_lt.mp hbc) (Ne.symm h2)
        have hAC : a.tag t < c.tag t := lt_trans hAB hBC
        rw [if_neg (fun h => absurd (h ▸ hAC) (lt_irrefl _))]
        simp only [decide_eq_false_iff_not]
        exact fun hlt => lt_asymm hAC hlt

/-- The complement of `SampleSlice.Less` implies the lexicographic ordering
stated by the spec. -/
theorem sampleLess_le_spec (tags : List String) (a b : PipeSample)
    (h : sampleLess tags b a = false) : specTagOrder tags a b := by
  induction tags with
  | nil =>
    right
    refine ⟨rfl, ?_⟩
    simp only [sampleLess, decide_eq_false_iff_not] at h
    omega
  | cons t rest ih =>
    simp only [sampleLess] at h
    by_cases he : b.tag t = a.tag t
    · rw [if_pos he] at h
      rcases ih h with hlex | ⟨heq, hle⟩
      · left
        simp only [List.map_cons]
        rw [show a.tag t = b.tag t from he.symm]
        exact List.Lex.cons hlex
      · right
        simp only [List.map_cons]
        exact ⟨by rw [he.symm, heq], hle⟩
    · rw [if_neg he] at h
      simp only [decide_eq_false_iff_not] at h
      left
      simp only [List.map_cons]
      exact List.Lex.rel (lt_of_le_of_ne (not_lt.mp h) (Ne.symm he))

/-- C7: `SampleSorter.ProcessBatch` returns the header unchanged and a
permutation of the input samples that is sorted lexicographically by the
values of the configured tags, with the timestamp as the final tiebreak. -/
theorem sample_sorter_process_batch (tags : List String) (header : Header)
    (samples : List PipeSample) :
    (SampleSorter.ProcessBatch tags header samples).1 = header ∧
    (SampleSorter.ProcessBatch tags header samples).2.Perm samples ∧
    (SampleSorter.ProcessBatch tags header samples).2.Pairwise (specTagOrder tags) := by
  refine ⟨rfl, List.mergeSort_perm samples _, ?_⟩
  have htrans : ∀ a b c : PipeSample, (!sampleLess tags b a) = true →
      (!sampleLess tags c b) = true → (!sampleLess tags c a) = true := by
    intro a b c hab hbc
    simp only [Bool.not_eq_true'] at hab hbc ⊢
    exact sampleLess_neg_trans tags a b c hab hbc
  have hsorted := List.sorted_mergeSort htrans (fun a b => sampleLess_total tags a b) samples
  exact hsorted.imp (fun hab => sampleLess_le_spec tags _ _ (by simpa using hab))

/-! ## C6: variance filter criterion -/

/-- Index membership in the keep loop: an index survives iff it is listed
and its weighted standard deviation reaches the threshold. -/
theorem varianceFilterLoop_fst_mem (minW : ℝ) (samples : List (List ℝ))
    (l : List (Nat × String)) (i : Nat) :
    i ∈ (varianceFilterLoop minW samples l).1 ↔
      (∃ f, (i, f) ∈ l) ∧ minW ≤ weightedStddev (column samples i) := by
  induction l with
  | nil => simp [varianceFilterLoop]
  | cons p rest ih =>
    obtain ⟨j, f⟩ := p
    by_cases hw : weightedStddev (column samples j) ≥ minW
    · rw [varianceFilterLoop, if_pos hw]
      simp only [List.mem_cons]
      constructor
      · rintro (rfl | hmem)
        · exact ⟨⟨f, by simp⟩, hw⟩
        · obtain ⟨⟨f', hf'⟩, hwi⟩ := ih.mp hmem
          exact ⟨⟨f', by simp [hf']⟩, hwi⟩
      · rintro ⟨⟨f', hf'⟩, hwi⟩
        rcases hf' with heq | hmem
        · left
          exact (Prod.mk.injEq _ _ _ _ ▸ heq).1
        · right
          exact ih.mpr ⟨⟨f', hmem⟩, hwi⟩
    · rw [varianceFilterLoop, if_neg hw]
      rw [ih]
      constructor
      · rintro ⟨⟨f', hf'⟩, hwi⟩
        exact ⟨⟨f', by simp [hf']⟩, hwi⟩
      · rintro ⟨⟨f', hf'⟩, hwi⟩
        rw [List.mem_cons] at hf'
        rcases hf' with heq | hmem
        · have : i = j := (Prod.mk.injEq _ _ _ _ ▸ heq).1
          subst this
          exact absurd hwi hw
        · exact ⟨⟨f', hmem⟩, hwi⟩

/-- The surviving field names are the images of the surviving indices. -/
theorem varianceFilterLoop_snd (minW : ℝ) (samples : List (List ℝ))
    (l : List (Nat × String)) (g : Nat → String)
    (hg : ∀ p ∈ l, g p.1 = p.2) :
    (varianceFilterLoop minW samples l).2
      = (varianceFilterLoop minW samples l).1.map g := by
  induction l with
  | nil => simp [varianceFilterLoop]
  | cons p rest ih =>
    obtain ⟨j, f⟩ := p
    have hrest := ih (fun q hq => hg q (by simp [hq]))
    by_cases hw : weightedStddev (column samples j) ≥ minW
    · rw [varianceFilterLoop, if_pos hw]
      simp only [List.map_cons]
      rw [hg (j, f) (by simp), hrest]
    · rw [varianceFilterLoop, if_neg hw]
      exact hrest

/-- C6 (amended): the variance filter keeps exactly the fields whose signed
weighted standard deviation — the standard deviation divided by the mean
itself, not by its absolute value, or the raw standard deviation when the
mean is zero — is at least the threshold; the output header lists precisely
the surviving fields in order. -/
theorem metric_variance_filter_keeps (minW : ℝ) (fields : List String)
    (samples : List (List ℝ)) (i : Nat) (h : Header) :
    (i ∈ (MetricVarianceFilterIndices minW fields samples).1 ↔
      i < fields.length ∧ minW ≤ weightedStddev (column samples i)) ∧
    (MetricVarianceFilterIndices minW fields samples).2
      = (MetricVarianceFilterIndices minW fields samples).1.map
          (fun j => fields.getD j "") ∧
    (MetricVarianceFilterProcessBatch minW h samples).1.fields
      = (MetricVarianceFilterIndices minW h.fields samples).2 := by
  refine ⟨?_, ?_, rfl⟩
  · rw [MetricVarianceFilterIndices, varianceFilterLoop_fst_mem]
    constructor
    · rintro ⟨⟨f, hf⟩, hwi⟩
      refine ⟨?_, hwi⟩
      have := List.mem_enum_iff_getElem?.mp hf
      exact (List.getElem?_eq_some_iff.mp this).1
    · rintro ⟨hlen, hwi⟩
      refine ⟨⟨fields[i], ?_⟩, hwi⟩
      exact List.mem_enum_iff_getElem?.mpr (List.getElem?_eq_some_iff.mpr ⟨hlen, rfl⟩)
  · rw [MetricVarianceFilterIndices]
    refine varianceFilterLoop_snd minW samples fields.enum (fun j => fields.getD j "") ?_
    intro p hp
    have := List.mem_enum_iff_getElem?.mp hp
    show fields.getD p.1 "" = p.2
    rw [List.getD_eq_getElem?_getD, this]
    rfl

/-- C6 counterexample for the claim as stated: a single metric with values
`0, -2, -4` has mean `-2` and standard deviation `2`, so the quantity named
by the spec, σ/|μ| = 1, reaches the threshold 1 and the claim keeps the
field; the code divides by the signed mean, obtains `-1`, and drops it. -/
theorem variance_filter_signed_mean_drops :
    specWeightedStddev (column [[0], [-2], [-4]] 0) = 1 ∧
    (MetricVarianceFilterIndices 1 ["m"] [[0], [-2], [-4]]).2 = [] := by
  have hcol : column [[(0 : ℝ)], [-2], [-4]] 0 = [0, -2, -4] := by
    simp [column]
  have hmean : runningMean [(0 : ℝ), -2, -4] = -2 := by
    simp only [runningMean, List.sum_cons, List.sum_nil, List.length_cons, List.length_nil]
    norm_num
  have hvar : runningVar [(0 : ℝ), -2, -4] = 4 := by
    simp only [runningVar, hmean, List.map_cons, List.map_nil, List.sum_cons, List.sum_nil,
      List.length_cons, List.length_nil]
    norm_num
  have hsd : runningStddev [(0 : ℝ), -2, -4] = 2 := by
    rw [runningStddev, hvar, show (4 : ℝ) = 2 ^ 2 by norm_num, Real.sqrt_sq (by norm_num)]
  have hw : weightedStddev [(0 : ℝ), -2, -4] = -1 := by
    rw [weightedStddev, if_pos (by rw [hmean]; norm_num), hsd, hmean]
    norm_num
  have hspec : specWeightedStddev [(0 : ℝ), -2, -4] = 1 := by
    rw [specWeightedStddev, if_pos (by rw [hmean]; norm_num), hsd, hmean]
    norm_num
  constructor
  · rw [hcol, hspec]
  · rw [MetricVarianceFilterIndices, show (["m"] : List String).enum = [(0, "m")] from rfl,
      varianceFilterLoop, if_neg ?_, varianceFilterLoop]
    rw [hcol, hw]
    norm_num

/-! ## C9: PCAProjection.Sample dereferences its nil result pointer -/

/-- C9: on every call, `PCAProjection.Sample` invokes `SetSampleValues` on
the never-assigned nil named return value `result`, so the nil-dereference
branch of `SetSampleValues` is reached for every projection and every input
sample. -/
theorem pca_projection_sample_nil_deref (proj : PCAProjection) (s : PCASample) :
    PCAProjection.Sample proj s = GoExec.nilDeref ∧
    SetSampleValues none (proj.vectorMap s.values) = GoExec.nilDeref ∧
    CopyMetadataFrom none s = GoExec.nilDeref := by
  refine ⟨rfl, rfl, rfl⟩

/-! ## C8: operations on a stopped TCPSink -/

/-- C8: after `TCPSink.Close`, both `Sample()` and `Header()` return the
"already stopped" error, leave the sink state unchanged (so the same holds
for every later call), and perform no dial, no enqueue and no connection
close. -/
theorem tcp_sink_stopped_rejects (dialOk : Bool) (st : TCPSinkState) (s : Sample)
    (h : Header) :
    TCPSink.Sample dialOk (TCPSink.Close st) s h
        = (.error "TCP sink already stopped", TCPSink.Close st, []) ∧
    TCPSink.Header dialOk (TCPSink.Close st) h
        = (.error "TCP sink already stopped", TCPSink.Close st, []) := by
  have hstop : (TCPSink.Close st).stopped = true := by
    unfold TCPSink.Close
    split <;> simp_all
  constructor
  · unfold TCPSink.Sample
    simp [hstop]
  · unfold TCPSink.Header
    simp [hstop]

/-! ## C4: URL endpoint parse conflicts -/

/-- A recognised format name is non-empty. -/
theorem format_ne_empty {p : String} (hp : allFormats.contains p = true) : p ≠ "" := by
  have hmem : p ∈ allFormats := by simpa using hp
  simp only [allFormats, List.mem_cons, List.mem_singleton, List.not_mem_nil, or_false] at hmem
  rcases hmem with h | h | h <;> subst h <;> decide

/-- Once a format is recorded, any further format part fails the parse. -/
theorem parseEndpointParts_format_state (parts : List String) (res : EndpointDescription)
    (hfmt : res.Format ≠ "")
    (hcnt : 0 < parts.countP (fun p => allFormats.contains p)) :
    ∃ e, parseEndpointParts parts res = .error e := by
  induction parts generalizing res with
  | nil => simp [List.countP_nil] at hcnt
  | cons part rest ih =>
    by_cases hf : allFormats.contains part = true
    · refine ⟨"Multiple formats defined", ?_⟩
      unfold parseEndpointParts
      simp only [hf, eq_self_iff_true, if_true]
      rw [if_pos hfmt]
    · have hcnt2 : 0 < rest.countP (fun p => allFormats.contains p) := by
        rwa [List.countP_cons_of_neg _ _ hf] at hcnt
      unfold parseEndpointParts
      simp only [hf, Bool.false_eq_true, if_false]
      repeat' first
        | exact ⟨_, rfl⟩
        | exact ih _ hfmt hcnt2
        | split

/-- Two format parts fail the parse, whatever the running state. -/
theorem parseEndpointParts_two_formats (parts : List String) (res : EndpointDescription)
    (hcnt : 2 ≤ parts.countP (fun p => allFormats.contains p)) :
    ∃ e, parseEndpointParts parts res = .error e := by
  induction parts generalizing res with
  | nil => simp [List.countP_nil] at hcnt
  | cons part rest ih =>
    by_cases hf : allFormats.contains part = true
    · have hcnt2 : 0 < rest.countP (fun p => allFormats.contains p) := by
        rw [List.countP_cons_of_pos (fun p => allFormats.contains p) rest hf] at hcnt
        omega
      unfold parseEndpointParts
      simp only [hf, eq_self_iff_true, if_true]
      by_cases hfmt : res.Format = ""
      · rw [if_neg (by simpa using hfmt)]
        exact parseEndpointParts_format_state rest _ (format_ne_empty hf) hcnt2
      · exact ⟨"Multiple formats defined", by rw [if_pos hfmt]⟩
    · have hcnt2 : 2 ≤ rest.countP (fun p => allFormats.contains p) := by
        rwa [List.countP_cons_of_neg _ _ hf] at hcnt
      unfold parseEndpointParts
      simp only [hf, Bool.false_eq_true, if_false]
      repeat' first
        | exact ⟨_, rfl⟩
        | exact ih _ hcnt2
        | split

/-- Once a transport is recorded, any further named non-format part fails
the parse. -/
theorem parseEndpointParts_transport_state (parts : List String) (res : EndpointDescription)
    (htyp : res.Typ ≠ "")
    (hcnt : 0 < parts.countP (fun p => !allFormats.contains p && !(p = ""))) :
    ∃ e, parseEndpointParts parts res = .error e := by
  induction parts generalizing res with
  | nil => simp [List.countP_nil] at hcnt
  | cons part rest ih =>
    by_cases hf : allFormats.contains part = true
    · have hfm : part ∈ allFormats := by simpa using hf
      have hcnt2 : 0 < rest.countP (fun p => !allFormats.contains p && !(p = "")) := by
        rwa [List.countP_cons_of_neg _ _ (by simp [hfm])] at hcnt
      unfold parseEndpointParts
      simp only [hf, eq_self_iff_true, if_true]
      by_cases hfmt : res.Format = ""
      · rw [if_neg (by simpa using hfmt)]
        exact ih _ htyp hcnt2
      · exact ⟨"Multiple formats defined", by rw [if_pos hfmt]⟩
    · refine ⟨"Multiple transport types defined", ?_⟩
      unfold parseEndpointParts
      simp only [hf, Bool.false_eq_true, if_false]
      rw [if_pos htyp]

/-- Two named non-format parts (two transports) fail the parse. -/
theorem parseEndpointParts_two_transports (parts : List String) (res : EndpointDescription)
    (hcnt : 2 ≤ parts.countP (fun p => !allFormats.contains p && !(p = ""))) :
    ∃ e, parseEndpointParts parts res = .error e := by
  induction parts generalizing res with
  | nil => simp [List.countP_nil] at hcnt
  | cons part rest ih =>
    by_cases hf : allFormats.contains part = true
    · have hfm : part ∈ allFormats := by simpa using hf
      have hcnt2 : 2 ≤ rest.countP (fun p => !allFormats.contains p && !(p = "")) := by
        rwa [List.countP_cons_of_neg _ _ (by simp [hfm])] at hcnt
      unfold parseEndpointParts
      simp only [hf, eq_self_iff_true, if_true]
      by_cases hfmt : res.Format = ""
      · rw [if_neg (by simpa using hfmt)]
        exact ih _ hcnt2
      · exact ⟨"Multiple formats defined", by rw [if_pos hfmt]⟩
    · by_cases htyp : res.Typ = ""
      · by_cases hemp : part = ""
        · have hcnt2 : 2 ≤ rest.countP (fun p => !allFormats.contains p && !(p = "")) := by
            rwa [List.countP_cons_of_neg _ _ (by simp [hemp])] at hcnt
          subst hemp
          unfold parseEndpointParts
          simp only [hf, Bool.false_eq_true, if_false]
          rw [if_neg (by simpa using htyp)]
          rw [if_neg (by decide), if_neg (by decide)]
          exact ih _ hcnt2
        · have hfm : part ∉ allFormats := by simpa using hf
          have hcnt2 : 0 < rest.countP (fun p => !allFormats.contains p && !(p = "")) := by
            rw [List.countP_cons_of_pos (fun p => !allFormats.contains p && !(p = "")) rest
              (by simp [hfm, hemp])] at hcnt
            omega
          unfold parseEndpointParts
          simp only [hf, Bool.false_eq_true, if_false]
          rw [if_neg (by simpa using htyp)]
          repeat' first
            | exact ⟨_, rfl⟩
            | exact parseEndpointParts_transport_state rest _ (by simp [hemp]) hcnt2
            | exact parseEndpointParts_transport_state rest _ (by decide) hcnt2
            | split
      · refine ⟨"Multiple transport types defined", ?_⟩
        unfold parseEndpointParts
        simp only [hf, Bool.false_eq_true, if_false]
        rw [if_pos (by simpa using htyp)]

/-- A `std` part with a target other than `-` fails the parse (the running
target is never modified by the loop). -/
theorem parseEndpointParts_std (parts : List String) (res : EndpointDescription)
    (hmem : "std" ∈ parts) (htgt : res.Target ≠ "-") :
    ∃ e, parseEndpointParts parts res = .error e := by
  induction parts generalizing res with
  | nil => cases hmem
  | cons part rest ih =>
    rw [List.mem_cons] at hmem
    by_cases hstd : part = "std"
    · subst hstd
      unfold parseEndpointParts
      rw [if_neg (by decide)]
      by_cases htyp : res.Typ = ""
      · rw [if_neg (by simpa using htyp), if_neg (by decide), if_pos rfl, if_pos htgt]
        exact ⟨_, rfl⟩
      · rw [if_pos (by simpa using htyp)]
        exact ⟨_, rfl⟩
    · have hmem2 : "std" ∈ rest := by
        rcases hmem with h | h
        · exact absurd h.symm hstd
        · exact h
      unfold parseEndpointParts
      repeat' first
        | exact ⟨_, rfl⟩
        | exact ih _ hmem2 htgt
        | split

/-- C4: a URL endpoint whose parts name two formats fails the parse, as does
one naming two transports (named non-format parts), as does the `std`
transport with a target other than `-`; and a single recognised format with
a single recognised transport succeeds with a non-empty target in either
order. -/
theorem parse_url_endpoint_conflicts :
    (∀ (parts : List String) (target : String),
        2 ≤ parts.countP (fun p => allFormats.contains p) →
        ∃ e, ParseUrlEndpointDescription parts target = .error e) ∧
    (∀ (parts : List String) (target : String),
        2 ≤ parts.countP (fun p => !allFormats.contains p && !(p = "")) →
        ∃ e, ParseUrlEndpointDescription parts target = .error e) ∧
    (∀ (parts : List String) (target : String),
        "std" ∈ parts → target ≠ "-" →
        ∃ e, ParseUrlEndpointDescription parts target = .error e) ∧
    (∀ (f t target : String), f ∈ allFormats → t ∈ ["tcp", "listen", "file", "std"] →
        (t = "std" → target = "-") → target ≠ "" →
        ParseUrlEndpointDescription [f, t] target = .ok ⟨f, t, false, target⟩ ∧
        ParseUrlEndpointDescription [t, f] target = .ok ⟨f, t, false, target⟩) := by
  have wrap : ∀ (parts : List String) (target : String),
      (∃ e, parseEndpointParts parts ⟨"", "", false, target⟩ = .error e) →
      ∃ e, ParseUrlEndpointDescription parts target = .error e := by
    intro parts target ⟨e, he⟩
    unfold ParseUrlEndpointDescription
    by_cases hguard : parts = [""] ∨ target = ""
    · exact ⟨_, by rw [if_pos hguard]⟩
    · rw [if_neg hguard, he]
      exact ⟨e, rfl⟩
  refine ⟨?_, ?_, ?_, ?_⟩
  · intro parts target hcnt
    exact wrap parts target (parseEndpointParts_two_formats parts _ hcnt)
  · intro parts target hcnt
    exact wrap parts target (parseEndpointParts_two_transports parts _ hcnt)
  · intro parts target hmem htgt
    exact wrap parts target (parseEndpointParts_std parts _ hmem htgt)
  · intro f t target hf ht hstd htgt
    have hguard : ¬([f, t] = [""] ∨ target = "") := by simp [htgt]
    have hguard2 : ¬([t, f] = [""] ∨ target = "") := by simp [htgt]
    simp only [allFormats, List.mem_cons, List.not_mem_nil, or_false] at hf ht
    rcases hf with rfl | rfl | rfl <;>
      rcases ht with rfl | rfl | rfl | rfl <;>
      simp_all [ParseUrlEndpointDescription, parseEndpointParts, allFormats]

/-- Closed instance for `parse_url_endpoint_conflicts`: `bin+tcp` and
`tcp+bin` both succeed on a non-empty target; two formats, two transports
and `std` with a non-`-` target fail. -/
theorem parse_url_endpoint_conflicts_witness :
    (ParseUrlEndpointDescription ["bin", "tcp"] "h" = .ok ⟨"bin", "tcp", false, "h"⟩ ∧
      ParseUrlEndpointDescription ["tcp", "bin"] "h" = .ok ⟨"bin", "tcp", false, "h"⟩) ∧
    (∃ e, ParseUrlEndpointDescription ["bin", "csv"] "x" = .error e) ∧
    (∃ e, ParseUrlEndpointDescription ["tcp", "listen"] "x" = .error e) ∧
    (∃ e, ParseUrlEndpointDescription ["std"] "x" = .error e) := by
  refine ⟨?_, ?_, ?_, ?_⟩
  · exact parse_url_endpoint_conflicts.2.2.2 "bin" "tcp" "h" (by decide) (by decide)
      (by decide) (by decide)
  · exact parse_url_endpoint_conflicts.1 ["bin", "csv"] "x" (by decide)
  · exact parse_url_endpoint_conflicts.2.1 ["tcp", "listen"] "x" (by decide)
  · exact parse_url_endpoint_conflicts.2.2.1 ["std"] "x" (by decide) (by decide)

/-! ## C5: bare endpoint target inference -/

/-- Whatever state the `CreateInput` loop has reached, an input whose parsed
description carries an explicit format makes the whole call fail. -/
theorem createInputLoop_error_of_format (customs : List (String × CustomSourceFactory))
    (inputs : List String) (result : Option SourceDesc) (ity : String)
    (input : String) (d : EndpointDescription)
    (hmem : input ∈ inputs)
    (hparse : ParseEndpointDescription input false = .ok d)
    (hfmt : d.Format ≠ "") :
    ∃ e, createInputLoop customs inputs result ity = .error e := by
  induction inputs generalizing result ity with
  | nil => cases hmem
  | cons x rest ih =>
    rw [List.mem_cons] at hmem
    rcases hmem with rfl | hmem
    · refine ⟨"Format cannot be specified for data input: " ++ input, ?_⟩
      unfold createInputLoop
      rw [hparse]
      simp [hfmt]
    · unfold createInputLoop
      cases hp : ParseEndpointDescription x false with
      | error e => exact ⟨e, rfl⟩
      | ok ep =>
        repeat' first
          | exact ⟨_, rfl⟩
          | exact ih _ _ hmem
          | split

/-- C10: every input endpoint description that carries an explicit
marshalling format is rejected by `CreateInput`; when it is the first input
the error is exactly "Format cannot be specified for data input"; and the
`Unmarshaller` of every endpoint description is `nil`, so input formats are
always auto-detected. -/
theorem create_input_rejects_explicit_format :
    (∀ (customs : List (String × CustomSourceFactory)) (inputs : List String)
        (input : String) (d : EndpointDescription), input ∈ inputs →
        ParseEndpointDescription input false = .ok d → d.Format ≠ "" →
        ∃ e, CreateInput customs inputs = .error e) ∧
    (∀ (customs : List (String × CustomSourceFactory)) (input : String)
        (rest : List String) (d : EndpointDescription),
        ParseEndpointDescription input false = .ok d → d.Format ≠ "" →
        CreateInput customs (input :: rest)
          = .error ("Format cannot be specified for data input: " ++ input)) ∧
    (∀ d : EndpointDescription, d.Unmarshaller = none) := by
  refine ⟨?_, ?_, fun _ => rfl⟩
  · intro customs inputs input d hmem hp hf
    exact createInputLoop_error_of_format customs inputs none "" input d hmem hp hf
  · intro customs input rest d hp hf
    unfold CreateInput createInputLoop
    rw [hp]
    simp [hf]

/-- Closed instance for `create_input_rejects_explicit_format`: the input
endpoint `csv+file://x` parses with the explicit format `csv` and is
rejected. -/
theorem create_input_rejects_explicit_format_witness :
    CreateInput [] ["csv+file://x"]
      = .error ("Format cannot be specified for data input: " ++ "csv+file://x") :=
  create_input_rejects_explicit_format.2.1 [] "csv+file://x" []
    ⟨"csv", "file", false, "x"⟩ (by rfl) (by simp)

/-! ## C3: batch step chain short-circuits on empty batches -/

/-- Composition of the step chain: running a concatenated chain is running
the first chain and feeding its outcome to the second. -/
theorem executeSteps_append (l1 l2 : List BatchStep) (samples : List PipeSample)
    (header : Option Header) :
    executeSteps (l1 ++ l2) samples header
      = match executeSteps l1 samples header with
        | .ok (s2, h2) => executeSteps l2 s2 h2
        | .err e => .err e
        | .nilDeref => .nilDeref := by
  induction l1 generalizing samples header with
  | nil =>
    simp only [List.nil_append, executeSteps]
  | cons st rest ih =>
    cases header with
    | none =>
      by_cases hs : samples.length = 0 <;> simp [executeSteps, hs]
    | some hh =>
      by_cases hs : samples.length = 0
      · have h2 : executeSteps l2 samples (some hh) = .ok (samples, some hh) := by
          cases l2 with
          | nil => rfl
          | cons p r => simp [executeSteps, hs]
        simp [executeSteps, hs, h2]
      · simp only [List.cons_append, executeSteps, hs, if_false]
        cases st (some hh) samples with
        | error e => rfl
        | ok p => exact ih p.2 p.1

/-- C3 (amended): when a step of the chain returns an empty sample set, the
remaining steps are not executed; the flush completes without error when the
emptying step also returned a non-nil header.  A nil returned header makes
the flush fail: with the nil-header error when the emptying step was the
last of the chain, and with a nil-pointer panic — `log.Warnln` evaluates
`len(header.Fields)` in the skip message — when steps remain. -/
theorem batch_empty_short_circuit (down : Downstream) (st : BatchState)
    (pre post : List BatchStep) (header : Header) (hres : Option Header)
    (hsteps : st.steps = pre ++ post)
    (hrun : executeSteps pre st.samples (some header) = .ok ([], hres)) :
    (∀ hh, hres = some hh →
      executeSteps (pre ++ post) st.samples (some header) = .ok ([], some hh) ∧
      (executeFlush down st (some header)).1 = .ok ()) ∧
    (hres = none → post = [] →
      executeSteps (pre ++ post) st.samples (some header) = .ok ([], none) ∧
      (executeFlush down st (some header)).1
        = .err "Cannot flush samples because nil-header was returned by last batch processing step") ∧
    (hres = none → post ≠ [] →
      executeSteps (pre ++ post) st.samples (some header) = .nilDeref ∧
      (executeFlush down st (some header)).1 = .nilDeref) := by
  have hcomp : executeSteps (pre ++ post) st.samples (some header)
      = executeSteps post [] hres := by
    rw [executeSteps_append, hrun]
  have hforce : st.samples.length = 0 → hres = some header := by
    intro hempty
    cases pre with
    | nil =>
      simp only [executeSteps, GoOutcome.ok.injEq, Prod.mk.injEq] at hrun
      exact hrun.2.symm
    | cons p rest =>
      simp only [executeSteps, hempty, if_true, GoOutcome.ok.injEq, Prod.mk.injEq] at hrun
      exact hrun.2.symm
  refine ⟨?_, ?_, ?_⟩
  · rintro hh rfl
    have hrest : executeSteps post [] (some hh) = .ok ([], some hh) := by
      cases post with
      | nil => rfl
      | cons p r => simp [executeSteps]
    refine ⟨hcomp.trans hrest, ?_⟩
    by_cases hempty : st.samples.length = 0
    · simp [executeFlush, hempty]
    · unfold executeFlush
      simp only [hempty, false_or, if_false]
      rw [hsteps, hcomp, hrest]
      simp [emitAll]
  · rintro rfl rfl
    refine ⟨hcomp, ?_⟩
    by_cases hempty : st.samples.length = 0
    · exact absurd (hforce hempty) (by simp)
    · unfold executeFlush
      simp only [hempty, false_or, if_false]
      rw [hsteps, hcomp]
      simp [executeSteps]
  · rintro rfl hne
    obtain ⟨p, r, rfl⟩ : ∃ p r, post = p :: r := by
      cases post with
      | nil => exact absurd rfl hne
      | cons p r => exact ⟨p, r, rfl⟩
    have hrest : executeSteps (p :: r) [] none = .nilDeref := by
      simp [executeSteps]
    refine ⟨hcomp.trans hrest, ?_⟩
    by_cases hempty : st.samples.length = 0
    · exact absurd (hforce hempty) (by simp)
    · unfold executeFlush
      simp only [hempty, false_or, if_false]
      rw [hsteps, hcomp, hrest]
      simp

/-- Closed instance for `batch_empty_short_circuit`: a one-sample batch, a
first step that empties it with a fresh header, and a later failing step that
is never reached; the flush succeeds. -/
theorem batch_empty_short_circuit_witness :
    (executeSteps
        ([fun _ _ => Except.ok (some ⟨false, ["y"]⟩, [])]
          ++ [fun _ _ => Except.error "later step"])
        [⟨0, [], [1]⟩] (some ⟨false, ["x"]⟩)
      = .ok ([], some ⟨false, ["y"]⟩)) ∧
    (executeFlush (fun _ _ => .ok ())
        { checkerLast := none,
          samples := [⟨0, [], [1]⟩],
          lastFlushTag := "",
          lastAutoFlushError := none,
          steps := [fun _ _ => Except.ok (some ⟨false, ["y"]⟩, [])]
            ++ [fun _ _ => Except.error "later step"],
          flushTag := "",
          flushTimeoutPos := false }
        (some ⟨false, ["x"]⟩)).1 = .ok () :=
  (batch_empty_short_circuit (fun _ _ => .ok ())
    ⟨none, [⟨0, [], [1]⟩], "", none,
      [fun _ _ => Except.ok (some ⟨false, ["y"]⟩, [])]
        ++ [fun _ _ => Except.error "later step"], "", false⟩
    [fun _ _ => Except.ok (some ⟨false, ["y"]⟩, [])]
    [fun _ _ => Except.error "later step"]
    ⟨false, ["x"]⟩ (some ⟨false, ["y"]⟩) rfl rfl).1 ⟨false, ["y"]⟩ rfl

/-! ## C2: auto-flush error ordering -/

/-- Flushing an empty buffer does nothing and cannot fail. -/
theorem executeFlush_empty (down : Downstream) (st : BatchState) (header : Option Header)
    (h : st.samples = []) : executeFlush down st header = (.ok (), st) := by
  unfold executeFlush
  simp [h]

/-- A flush error implies the non-trivial branch was taken. -/
theorem executeFlush_error_branch (down : Downstream) (st : BatchState)
    (header : Option Header) (e : String)
    (h : (executeFlush down st header).1 = .err e) :
    ¬(st.samples.length = 0 ∨ header = none) := by
  intro hc
  unfold executeFlush at h
  rw [if_pos hc] at h
  exact absurd h (by simp)

/-- In the non-trivial branch the state change of a flush is exactly the
clearing of the sample buffer. -/
theorem executeFlush_state (down : Downstream) (st : BatchState) (header : Option Header)
    (hc : ¬(st.samples.length = 0 ∨ header = none)) :
    (executeFlush down st header).2 = { st with samples := [] } := by
  unfold executeFlush
  simp only [hc, if_false]
  split <;> rfl

/-- On a state whose buffer is empty and whose `lastAutoFlushError` is
stashed, a `Sample()` call returns the stashed error — its own triggered
flush cannot fail on the empty buffer — and clears the stash. -/
theorem sampleStep_returns_stash (down : Downstream) (st : BatchState) (s : PipeSample)
    (h : Header) (msg : String)
    (hsamp : st.samples = [])
    (hstash : st.lastAutoFlushError = some msg)
    (hT : st.flushTimeoutPos = true) :
    (sampleStep down st s h).1 = .err msg ∧
    (sampleStep down st s h).2.lastAutoFlushError = none := by
  have key : ∀ (b : Bool) (oh : Option Header) (st2 : BatchState), st2.samples = [] →
      (if b then executeFlush down st2 oh
       else ((GoOutcome.ok (), st2) : GoOutcome Unit × BatchState)) = (.ok (), st2) := by
    intro b oh st2 h2
    cases b with
    | false => rfl
    | true => simp [executeFlush_empty down st2 oh h2]
  unfold sampleStep
  simp only []
  rw [key _ _ _ (by split <;> simpa using hsamp)]
  by_cases htag : st.flushTag = "" <;> simp [htag, hstash, hT]

/-- C2: a failing timeout-initiated automatic flush stashes its wrapped
error in `lastAutoFlushError`; the next `Sample()` call returns exactly that
error (the automatic flush has emptied the buffer, so the call's own flush
cannot produce a competing error) and clears the stash, so the error is
returned at most once. -/
theorem auto_flush_error_returned_once (down : Downstream) (st : BatchState)
    (s : PipeSample) (h : Header) (e : String)
    (hT : st.flushTimeoutPos = true)
    (hfail : (executeFlush down st st.checkerLast).1 = .err e) :
    ∃ st1, autoFlushStep down st = .ok st1 ∧
      (sampleStep down st1 s h).1 = .err ("Error during previous auto-flush: " ++ e) ∧
      (sampleStep down st1 s h).2.lastAutoFlushError = none := by
  have hne := executeFlush_error_branch down st st.checkerLast e hfail
  have hst2 := executeFlush_state down st st.checkerLast hne
  have hpair : executeFlush down st st.checkerLast
      = (.err e, { st with samples := [] }) :=
    Prod.ext hfail hst2
  refine ⟨{ st with samples := [],
                    lastAutoFlushError :=
                      some ("Error during previous auto-flush: " ++ e) },
          ?_, ?_, ?_⟩
  · unfold autoFlushStep
    rw [hpair]
  · exact (sampleStep_returns_stash down
      { st with samples := [],
                lastAutoFlushError :=
                  some ("Error during previous auto-flush: " ++ e) }
      s h ("Error during previous auto-flush: " ++ e) rfl rfl hT).1
  · exact (sampleStep_returns_stash down
      { st with samples := [],
                lastAutoFlushError :=
                  some ("Error during previous auto-flush: " ++ e) }
      s h ("Error during previous auto-flush: " ++ e) rfl rfl hT).2

/-- Closed instance for `auto_flush_error_returned_once`: one buffered
sample and a failing batch step make the automatic flush fail; the next
`Sample()` call returns the wrapped error once. -/
theorem auto_flush_error_returned_once_witness :
    ∃ st1,
      autoFlushStep (fun _ _ => .ok ())
          ⟨some ⟨false, ["x"]⟩, [⟨0, [], [1]⟩], "", none,
            [fun _ _ => Except.error "boom"], "", true⟩ = .ok st1 ∧
      (sampleStep (fun _ _ => .ok ()) st1 ⟨1, [], [2]⟩ ⟨false, ["x"]⟩).1
        = .err ("Error during previous auto-flush: " ++ "boom") ∧
      (sampleStep (fun _ _ => .ok ()) st1
          ⟨1, [], [2]⟩ ⟨false, ["x"]⟩).2.lastAutoFlushError = none :=
  auto_flush_error_returned_once (fun _ _ => .ok ())
    ⟨some ⟨false, ["x"]⟩, [⟨0, [], [1]⟩], "", none,
      [fun _ _ => Except.error "boom"], "", true⟩
    ⟨1, [], [2]⟩ ⟨false, ["x"]⟩ "boom" rfl rfl

/-- C3 counterexample for the claim as stated: a step that returns an empty
sample set together with a nil header.  Placed before another step, the next
loop iteration evaluates `len(header.Fields)` in its skip log message,
dereferences the nil header and the flush panics; placed as the last step,
the flush fails with the nil-header error.  Either way the flush does not
"complete without error". -/
theorem batch_empty_nil_header_flush_fails :
    (executeFlush (fun _ _ => .ok ())
      { checkerLast := some ⟨false, ["x"]⟩,
        samples := [⟨0, [], [1]⟩],
        lastFlushTag := "",
        lastAutoFlushError := none,
        steps := [fun _ _ => .ok (none, []), fun _ _ => .error "second step must not run"],
        flushTag := "",
        flushTimeoutPos := false }
      (some ⟨false, ["x"]⟩)).1 = .nilDeref ∧
    (executeFlush (fun _ _ => .ok ())
      { checkerLast := some ⟨false, ["x"]⟩,
        samples := [⟨0, [], [1]⟩],
        lastFlushTag := "",
        lastAutoFlushError := none,
        steps := [fun _ _ => .ok (none, [])],
        flushTag := "",
        flushTimeoutPos := false }
      (some ⟨false, ["x"]⟩)).1
      = .err "Cannot flush samples because nil-header was returned by last batch processing step" :=
  ⟨rfl, rfl⟩

end GoBitflow
